import Mathlib

/-!
Verification of the hybrid retrieval core
(`src/tasks/31_add-hybrid-search-capabilities/src/search/`).

The Python sources are embedded shallowly:
* floating-point scores are modelled as rationals (`ℚ`), except for `get_idf`
  whose natural logarithm lands in `ℝ`;
* Python `dict`s (which preserve insertion order) are modelled as
  association lists: a lookup takes the first matching key, an insert of a
  fresh key appends at the end, and an update rewrites the entry in place;
* external libraries (NLTK tokenizer/lemmatizer, the sentence-transformer
  embedding model, the regex helpers of the standard library) are taken as
  parameters, exactly as the spec treats them (black-box capabilities);
* fallible code returns `Except PyError`.
-/

namespace HybridSearchSpec

/-- Python runtime errors that the embedded code can raise. -/
inductive PyError where
  | typeError : PyError
deriving DecidableEq

/-! ## Association lists standing for Python dicts -/

/-- Lookup in an insertion-ordered dict (first matching key). -/
def alookup {α : Type} (m : List (String × α)) (k : String) : Option α :=
  (m.find? (fun p => p.1 == k)).map (fun p => p.2)

/-- Python `d[k] = v`: update the entry in place if the key is present,
otherwise append a fresh entry at the end. -/
def aset {α : Type} (m : List (String × α)) (k : String) (v : α) :
    List (String × α) :=
  match alookup m k with
  | some _ => m.map (fun p => if p.1 = k then (k, v) else p)
  | none => m ++ [(k, v)]

/-- Update the value stored at an existing key, leaving the dict order
unchanged (Python `d[k].field = ...` / `d[k] += ...`). -/
def aupd {α : Type} (m : List (String × α)) (k : String) (f : α → α) :
    List (String × α) :=
  m.map (fun p => if p.1 = k then (p.1, f p.2) else p)

theorem alookup_nil {α : Type} (k : String) : alookup ([] : List (String × α)) k = none := rfl

theorem alookup_cons {α : Type} (p : String × α) (m : List (String × α)) (k : String) :
    alookup (p :: m) k = if p.1 = k then some p.2 else alookup m k := by
  by_cases h : p.1 = k <;> simp [alookup, List.find?_cons, h]

theorem alookup_append {α : Type} (m₁ m₂ : List (String × α)) (k : String) :
    alookup (m₁ ++ m₂) k = (alookup m₁ k).or (alookup m₂ k) := by
  unfold alookup
  rw [List.find?_append]
  cases List.find? (fun p => p.1 == k) m₁ <;> simp

theorem alookup_eq_none_iff {α : Type} (m : List (String × α)) (k : String) :
    alookup m k = none ↔ k ∉ m.map Prod.fst := by
  have hmap : alookup m k = none ↔ List.find? (fun p => p.1 == k) m = none := by
    unfold alookup
    cases List.find? (fun p => p.1 == k) m <;> simp
  rw [hmap, List.find?_eq_none]
  constructor
  · intro h hk
    rcases List.mem_map.mp hk with ⟨p, hp, rfl⟩
    have hc := h p hp
    simp at hc
  · intro h p hp
    simp only [beq_iff_eq]
    intro hpk
    exact h (List.mem_map.mpr ⟨p, hp, hpk⟩)

theorem alookup_isSome_of_mem_keys {α : Type} {m : List (String × α)} {k : String}
    (h : k ∈ m.map Prod.fst) : (alookup m k).isSome := by
  cases hl : alookup m k with
  | none => exact absurd ((alookup_eq_none_iff m k).mp hl) (not_not_intro h)
  | some v => rfl

theorem aupd_map_fst {α : Type} (m : List (String × α)) (k : String) (f : α → α) :
    (aupd m k f).map Prod.fst = m.map Prod.fst := by
  induction m with
  | nil => rfl
  | cons p t ih =>
    by_cases h : p.1 = k <;> simp [aupd, h] at ih ⊢ <;> simpa [aupd] using ih

theorem mem_aupd {α : Type} {m : List (String × α)} {k : String} {f : α → α}
    {q : String × α} (hq : q ∈ aupd m k f) :
    ∃ p ∈ m, q = if p.1 = k then (p.1, f p.2) else p := by
  rcases List.mem_map.mp hq with ⟨p, hp, rfl⟩
  exact ⟨p, hp, rfl⟩

/-- In a dict with no duplicate keys, a stored entry is what lookup returns. -/
theorem alookup_of_mem_nodup {α : Type} {m : List (String × α)} {k : String} {v : α}
    (hnd : (m.map Prod.fst).Nodup) (hmem : (k, v) ∈ m) : alookup m k = some v := by
  induction m with
  | nil => cases hmem
  | cons p t ih =>
    have hnd' : p.1 ∉ t.map Prod.fst ∧ (t.map Prod.fst).Nodup := by
      rw [List.map_cons] at hnd
      exact List.nodup_cons.mp hnd
    rw [alookup_cons]
    rcases List.mem_cons.mp hmem with h | h
    · simp [← h]
    · have hk : k ∈ t.map Prod.fst := List.mem_map.mpr ⟨(k, v), h, rfl⟩
      have hp1 : p.1 ≠ k := fun he => hnd'.1 (he ▸ hk)
      simp only [hp1, if_false]
      exact ih hnd'.2 h

/-! ## Data model

`src/models.py` is not part of the repository snapshot (only its tests and
callers are). Modelled from the spec: `Document` carries `id`, `content`,
a cached `tokens` list, an `embedding` vector and a `metadata` map; `Query`
carries `text`, `k`, `min_score`, `filters` and the accumulated
`expanded_terms`; `SearchResult` carries a document, a combined `score` and
the three component scores, which default to `0`. -/

/-- Modelled from the spec: a document of the index (the `Document`
dataclass of the absent `src/models.py`).  The embedding vector is a list
of rationals. -/
structure Document where
  id : String
  content : String
  tokens : List String := []
  embedding : List ℚ := []
  metadata : List (String × String) := []
deriving DecidableEq

/-- Modelled from the spec: a search query (the `Query` dataclass of the
absent `src/models.py`), with the fields the search core reads. -/
structure Query where
  text : String
  k : Nat := 10
  min_score : ℚ := 0
  filters : List (String × String) := []
  expanded_terms : List String := []
deriving DecidableEq

/-- Modelled from the spec: one ranked hit (the `SearchResult` dataclass of
the absent `src/models.py`); component scores default to `0`. -/
structure SearchResult where
  document : Document
  score : ℚ
  bm25_score : ℚ := 0
  semantic_score : ℚ := 0
  expansion_score : ℚ := 0
deriving DecidableEq

/-! ## Text preprocessing (`preprocessing.py`)

The external linguistic capabilities (NLTK's `word_tokenize`, the WordNet
lemmatizer, the Porter stemmer, the English stopword list) and the pure
regex helpers `_remove_html` / `_remove_urls` / `_remove_emails` and the
punctuation-stripping substitution are parameters, bundled in `TextExternals`. -/

/-- External black-box pieces used by `TextPreprocessor`. -/
structure TextExternals where
  removeHtml : String → String
  removeUrls : String → String
  removeEmails : String → String
  stripPunct : String → String
  wordTokenize : String → List String
  lemmatize : String → String
  stem : String → String
  englishStopwords : List String

/-- Python `str.lower` on one character (ASCII model). -/
def pyCharLower (c : Char) : Char :=
  if 'A' ≤ c ∧ c ≤ 'Z' then Char.ofNat (c.toNat + 32) else c

/-- Python `str.lower` (ASCII model; the corpora of this development are
ASCII). -/
def pyLower (s : String) : String := String.mk (s.data.map pyCharLower)

/-- Python's `string.punctuation` as a character list. -/
def pyPunctuationChars : List Char :=
  ['!', '"', '#', '$', '%', '&', Char.ofNat 0x27, '(', ')', '*', '+', ',', '-',
   '.', '/', ':', ';', '<', '=', '>', '?', '@', '[', Char.ofNat 92, ']', '^',
   '_', Char.ofNat 0x60, Char.ofNat 0x7b, '|', Char.ofNat 0x7d, '~']

/-- Python `token in string.punctuation`: substring test against the
punctuation string. -/
def isPunctToken (t : String) : Bool :=
  decide (t.data <:+: pyPunctuationChars)

/-- Python `str.isalpha`: non-empty and every character alphabetic. -/
def pyIsAlpha (t : String) : Bool :=
  t ≠ "" && t.data.all Char.isAlpha

/-- Configuration consumed by `TextPreprocessor.__init__` (each key
optional, defaults as in the source). -/
structure PreprocessingConfig where
  lowercase : Option Bool := none
  remove_stopwords : Option Bool := none
  remove_punctuation : Option Bool := none
  lemmatize : Option Bool := none
  min_word_length : Option Nat := none
  max_word_length : Option Nat := none

/-- Instance state of `TextPreprocessor` after `__init__`. -/
structure TextPreprocessorState where
  lowercase : Bool
  remove_stopwords : Bool
  remove_punctuation : Bool
  lemmatizeFlag : Bool
  min_word_length : Nat
  max_word_length : Nat
  stop_words : List String
deriving DecidableEq

/-- `TextPreprocessor.__init__`: read the config with defaults and build
`stop_words` once — the stopword set is populated only if
`remove_stopwords` is set at construction time. -/
def TextPreprocessor.init (cfg : PreprocessingConfig) (ext : TextExternals) :
    TextPreprocessorState :=
  let rs := cfg.remove_stopwords.getD true
  { lowercase := cfg.lowercase.getD true
    remove_stopwords := rs
    remove_punctuation := cfg.remove_punctuation.getD true
    lemmatizeFlag := cfg.lemmatize.getD true
    min_word_length := cfg.min_word_length.getD 2
    max_word_length := cfg.max_word_length.getD 50
    stop_words := if rs then ext.englishStopwords else [] }

/-- `TextPreprocessor._filter_tokens`: drop standalone punctuation, drop
members of `self.stop_words`, filter by length, keep alphabetic tokens
only, then lemmatize (or stem) the survivors.  Note the filter consults
`self.stop_words`, not the `remove_stopwords` flag. -/
def TextPreprocessor.filterTokens (st : TextPreprocessorState) (ext : TextExternals)
    (tokens : List String) : List String :=
  tokens.foldl
    (fun acc token =>
      if isPunctToken token then acc
      else if token ∈ st.stop_words then acc
      else if token.length < st.min_word_length ∨ st.max_word_length < token.length then acc
      else if ¬ pyIsAlpha token then acc
      else acc ++ [if st.lemmatizeFlag then ext.lemmatize token else ext.stem token])
    []

/-- `TextPreprocessor.preprocess` (document mode): empty text short-circuits,
then strip HTML, lowercase, strip URLs and emails, strip punctuation,
tokenize, filter. -/
def TextPreprocessor.preprocess (st : TextPreprocessorState) (ext : TextExternals)
    (text : String) : List String :=
  if text = "" then []
  else
    let t := ext.removeHtml text
    let t := if st.lowercase then pyLower t else t
    let t := ext.removeUrls t
    let t := ext.removeEmails t
    let t := if st.remove_punctuation then ext.stripPunct t else t
    TextPreprocessor.filterTokens st ext (ext.wordTokenize t)

/-- `QueryPreprocessor.preprocess`: temporarily sets
`self.remove_stopwords = False`, calls the superclass `preprocess`, and
restores the flag.  The flag flip is modelled by the field update; the
restore is invisible because the flipped state is only used for this call. -/
def QueryPreprocessor.preprocess (st : TextPreprocessorState) (ext : TextExternals)
    (text : String) : List String :=
  TextPreprocessor.preprocess { st with remove_stopwords := false } ext text

/-- Splitting a character list at spaces (used by the concrete example
tokenizer below). -/
def splitChars : List Char → List (List Char)
  | [] => [[]]
  | c :: rest =>
    match splitChars rest with
    | [] => [[c]]
    | h :: t => if c = ' ' then [] :: h :: t else (c :: h) :: t

/-- Concrete whitespace tokenizer standing in for the external
`word_tokenize` in the evaluated examples. -/
def wsTokenize (s : String) : List String :=
  (splitChars s.data).map (fun cs => String.mk cs)

/-- Concrete externals used for counterexamples: identity string cleaners,
whitespace tokenizer, identity lemmatizer/stemmer, a one-word stopword
list. -/
def exText : TextExternals :=
  { removeHtml := id, removeUrls := id, removeEmails := id, stripPunct := id
    wordTokenize := wsTokenize
    lemmatize := id, stem := id
    englishStopwords := ["the"] }

/-- Preprocessor built from the default configuration (all keys absent). -/
def exPre : TextPreprocessorState := TextPreprocessor.init {} exText

example : TextPreprocessor.preprocess exPre exText "the cat" = ["cat"] := by decide
example : QueryPreprocessor.preprocess exPre exText "the cat" = ["cat"] := by decide
example : TextPreprocessor.preprocess { exPre with stop_words := [] } exText "the cat" =
    ["the", "cat"] := by decide

/-- Claim C1 (refutation): with the default configuration, document-mode
preprocessing of "the cat" drops "the" solely because it is a stopword
(the same state with an empty stopword set keeps it), yet query-mode
preprocessing drops it as well — `_filter_tokens` consults the
`stop_words` set built at `__init__`, which the flag flipped by
`QueryPreprocessor.preprocess` does not touch.  So query mode does not
preserve the tokens document mode drops as stopwords. -/
theorem c1_query_mode_still_drops_stopwords :
    TextPreprocessor.preprocess exPre exText "the cat" = ["cat"] ∧
    TextPreprocessor.preprocess { exPre with stop_words := [] } exText "the cat" =
      ["the", "cat"] ∧
    QueryPreprocessor.preprocess exPre exText "the cat" = ["cat"] := by
  refine ⟨by decide, by decide, by decide⟩

/-! ## Score normalization and result fusion (`fusion.py`) -/

/-- Minimum of a score list (`np.min` on a non-empty array; the `0` default
for `[]` is never reached by the callers, which test for emptiness first). -/
def listMin : List ℚ → ℚ
  | [] => 0
  | x :: xs => xs.foldl min x

/-- Maximum of a score list (`np.max`, same convention as `listMin`). -/
def listMax : List ℚ → ℚ
  | [] => 0
  | x :: xs => xs.foldl max x

/-- `ScoreNormalizer.min_max_normalize`: empty input maps to empty output;
if all scores coincide return all ones; otherwise rescale by
`(x - min) / (max - min)`. -/
def ScoreNormalizer.min_max_normalize (scores : List ℚ) : List ℚ :=
  if scores.isEmpty then []
  else
    let mn := listMin scores
    let mx := listMax scores
    if mx = mn then List.replicate scores.length 1
    else scores.map (fun x => (x - mn) / (mx - mn))

theorem foldl_min_le_init (l : List ℚ) : ∀ a : ℚ, l.foldl min a ≤ a := by
  induction l with
  | nil => intro a; simp
  | cons x xs ih => intro a; exact le_trans (ih (min a x)) (min_le_left a x)

theorem foldl_min_le_of_mem (l : List ℚ) :
    ∀ y ∈ l, ∀ a : ℚ, l.foldl min a ≤ y := by
  induction l with
  | nil => intro y hy; cases hy
  | cons x xs ih =>
    intro y hy a
    rcases List.mem_cons.mp hy with rfl | hy
    · exact le_trans (foldl_min_le_init xs (min a y)) (min_le_right a y)
    · exact ih y hy (min a x)

theorem foldl_min_mem_or (l : List ℚ) :
    ∀ a : ℚ, l.foldl min a = a ∨ l.foldl min a ∈ l := by
  induction l with
  | nil => intro a; exact Or.inl rfl
  | cons x xs ih =>
    intro a
    rcases ih (min a x) with h | h
    · rcases min_choice a x with hm | hm
      · exact Or.inl (by rw [List.foldl_cons, h, hm])
      · exact Or.inr (by rw [List.foldl_cons, h, hm]; exact List.mem_cons_self x xs)
    · exact Or.inr (List.mem_cons_of_mem x h)

theorem listMin_le {l : List ℚ} {y : ℚ} (hy : y ∈ l) : listMin l ≤ y := by
  cases l with
  | nil => cases hy
  | cons x xs =>
    rcases List.mem_cons.mp hy with rfl | hy
    · exact foldl_min_le_init xs y
    · exact foldl_min_le_of_mem xs y hy x

theorem listMin_mem {l : List ℚ} (hl : l ≠ []) : listMin l ∈ l := by
  cases l with
  | nil => exact absurd rfl hl
  | cons x xs =>
    rcases foldl_min_mem_or xs x with h | h
    · exact (by rw [listMin, h]; exact List.mem_cons_self x xs)
    · exact List.mem_cons_of_mem x (by rw [listMin]; exact h)

theorem foldl_max_ge_init (l : List ℚ) : ∀ a : ℚ, a ≤ l.foldl max a := by
  induction l with
  | nil => intro a; simp
  | cons x xs ih => intro a; exact le_trans (le_max_left a x) (ih (max a x))

theorem foldl_max_ge_of_mem (l : List ℚ) :
    ∀ y ∈ l, ∀ a : ℚ, y ≤ l.foldl max a := by
  induction l with
  | nil => intro y hy; cases hy
  | cons x xs ih =>
    intro y hy a
    rcases List.mem_cons.mp hy with rfl | hy
    · exact le_trans (le_max_right a y) (foldl_max_ge_init xs (max a y))
    · exact ih y hy (max a x)

theorem foldl_max_mem_or (l : List ℚ) :
    ∀ a : ℚ, l.foldl max a = a ∨ l.foldl max a ∈ l := by
  induction l with
  | nil => intro a; exact Or.inl rfl
  | cons x xs ih =>
    intro a
    rcases ih (max a x) with h | h
    · rcases max_choice a x with hm | hm
      · exact Or.inl (by rw [List.foldl_cons, h, hm])
      · exact Or.inr (by rw [List.foldl_cons, h, hm]; exact List.mem_cons_self x xs)
    · exact Or.inr (List.mem_cons_of_mem x h)

theorem listMax_ge {l : List ℚ} {y : ℚ} (hy : y ∈ l) : y ≤ listMax l := by
  cases l with
  | nil => cases hy
  | cons x xs =>
    rcases List.mem_cons.mp hy with rfl | hy
    · exact foldl_max_ge_init xs y
    · exact foldl_max_ge_of_mem xs y hy x

theorem listMax_mem {l : List ℚ} (hl : l ≠ []) : listMax l ∈ l := by
  cases l with
  | nil => exact absurd rfl hl
  | cons x xs =>
    rcases foldl_max_mem_or xs x with h | h
    · exact (by rw [listMax, h]; exact List.mem_cons_self x xs)
    · exact List.mem_cons_of_mem x (by rw [listMax]; exact h)

/-- Claim C7: `min_max_normalize` maps `[]` to `[]`; maps every non-empty
constant list to an all-ones list of the same length; and maps every other
non-empty list to a same-length list whose values lie in `[0, 1]` with both
`0` and `1` attained. -/
theorem c7_min_max_normalize_spec :
    ScoreNormalizer.min_max_normalize [] = [] ∧
    (∀ (scores : List ℚ) (x : ℚ), scores ≠ [] → (∀ y ∈ scores, y = x) →
      ScoreNormalizer.min_max_normalize scores = List.replicate scores.length 1) ∧
    (∀ scores : List ℚ, scores ≠ [] → ¬ (∃ x, ∀ y ∈ scores, y = x) →
      (ScoreNormalizer.min_max_normalize scores).length = scores.length ∧
      (0 : ℚ) ∈ ScoreNormalizer.min_max_normalize scores ∧
      (1 : ℚ) ∈ ScoreNormalizer.min_max_normalize scores ∧
      ∀ y ∈ ScoreNormalizer.min_max_normalize scores, 0 ≤ y ∧ y ≤ 1) := by
  refine ⟨rfl, ?_, ?_⟩
  · intro scores x hne hall
    have hmn : listMin scores = x := hall _ (listMin_mem hne)
    have hmx : listMax scores = x := hall _ (listMax_mem hne)
    unfold ScoreNormalizer.min_max_normalize
    rw [if_neg (by simpa [List.isEmpty_iff] using hne), if_pos (by rw [hmn, hmx])]
  · intro scores hne hnall
    have hmem := listMin_mem hne
    have hmxm := listMax_mem hne
    have hle : listMin scores ≤ listMax scores := le_trans (listMin_le hmxm) le_rfl
    have hneq : listMax scores ≠ listMin scores := by
      intro he
      refine hnall ⟨listMin scores, fun y hy => le_antisymm ?_ (listMin_le hy)⟩
      calc y ≤ listMax scores := listMax_ge hy
        _ = listMin scores := he
    have hlt : listMin scores < listMax scores :=
      lt_of_le_of_ne hle (fun h => hneq h.symm)
    have hpos : 0 < listMax scores - listMin scores := sub_pos.mpr hlt
    have hrw : ScoreNormalizer.min_max_normalize scores =
        scores.map (fun x => (x - listMin scores) / (listMax scores - listMin scores)) := by
      unfold ScoreNormalizer.min_max_normalize
      rw [if_neg (by simpa [List.isEmpty_iff] using hne), if_neg hneq]
    refine ⟨by rw [hrw]; exact List.length_map _ _, ?_, ?_, ?_⟩
    · rw [hrw]
      refine List.mem_map.mpr ⟨listMin scores, hmem, ?_⟩
      simp
    · rw [hrw]
      refine List.mem_map.mpr ⟨listMax scores, hmxm, ?_⟩
      exact div_self (ne_of_gt hpos)
    · intro y hy
      rw [hrw] at hy
      rcases List.mem_map.mp hy with ⟨z, hz, rfl⟩
      constructor
      · exact div_nonneg (sub_nonneg.mpr (listMin_le hz)) (le_of_lt hpos)
      · exact (div_le_one hpos).mpr (sub_le_sub_right (listMax_ge hz) _)

/-- Claim C7 witness: the theorem applied at `[5, 5]` (constant case) and
at `[1, 3]` (general case). -/
theorem c7_min_max_normalize_spec_witness :
    ScoreNormalizer.min_max_normalize [(5 : ℚ), 5] = [1, 1] ∧
    ((ScoreNormalizer.min_max_normalize [(1 : ℚ), 3]).length = 2 ∧
      (0 : ℚ) ∈ ScoreNormalizer.min_max_normalize [(1 : ℚ), 3] ∧
      (1 : ℚ) ∈ ScoreNormalizer.min_max_normalize [(1 : ℚ), 3]) := by
  have h2 := c7_min_max_normalize_spec.2.1 [(5 : ℚ), 5] 5 (by decide) (by decide)
  have h3 := c7_min_max_normalize_spec.2.2 [(1 : ℚ), 3] (by decide)
    (by
      rintro ⟨x, hx⟩
      have h1 := hx 1 (by decide)
      have h3 := hx 3 (by decide)
      rw [← h3] at h1
      exact absurd h1 (by norm_num))
  exact ⟨by simpa using h2, h3.1, h3.2.1, h3.2.2.1⟩

/-- The `hybrid:` section of the configuration dictionary read by
`ResultFusion.__init__` (each key optional). -/
structure HybridConfigOptions where
  fusion_strategy : Option String := none
  normalize_scores : Option Bool := none
  bm25_weight : Option ℚ := none
  semantic_weight : Option ℚ := none
  expansion_weight : Option ℚ := none
  k : Option ℚ := none

/-- Instance state of `ResultFusion` after `__init__`.  Note: the source
assigns the boolean config value to `self.normalize_scores`, and this
instance attribute shadows the method of the same name defined on the
class — every later `self.normalize_scores` refers to this boolean. -/
structure ResultFusionState where
  fusion_strategy : String
  normalize_scores : Bool
  bm25_weight : ℚ
  semantic_weight : ℚ
  expansion_weight : ℚ
  k_rrf : ℚ
deriving DecidableEq

/-- `ResultFusion.__init__` with the source defaults. -/
def ResultFusion.init (cfg : HybridConfigOptions) : ResultFusionState :=
  { fusion_strategy := cfg.fusion_strategy.getD "weighted"
    normalize_scores := cfg.normalize_scores.getD true
    bm25_weight := cfg.bm25_weight.getD 0.4
    semantic_weight := cfg.semantic_weight.getD 0.6
    expansion_weight := cfg.expansion_weight.getD 0.2
    k_rrf := cfg.k.getD 10 }

/-- The merge of one result into the accumulating dict of
`_weighted_fusion` when the document id is already present: accumulate the
weighted score and overwrite each component score that the incoming result
supplies with a positive value. -/
def wUpdateExisting (cur : SearchResult) (r : SearchResult) (w : ℚ) : SearchResult :=
  { cur with
    score := cur.score + r.score * w
    bm25_score := if 0 < r.bm25_score then r.bm25_score else cur.bm25_score
    semantic_score := if 0 < r.semantic_score then r.semantic_score else cur.semantic_score
    expansion_score := if 0 < r.expansion_score then r.expansion_score else cur.expansion_score }

/-- The per-result body of the `_weighted_fusion` inner loop: insert a new
entry with the weighted score, or merge into the existing entry. -/
def wAddResult (w : ℚ) (m : List (String × SearchResult)) (r : SearchResult) :
    List (String × SearchResult) :=
  match alookup m r.document.id with
  | none =>
    m ++ [(r.document.id,
      { document := r.document, score := r.score * w, bm25_score := r.bm25_score,
        semantic_score := r.semantic_score, expansion_score := r.expansion_score })]
  | some _ => aupd m r.document.id (fun cur => wUpdateExisting cur r w)

/-- Python `list.sort(key=lambda x: x.score, reverse=True)`: a stable sort
descending by score. -/
def descBySort (l : List SearchResult) : List SearchResult :=
  l.mergeSort (fun a b => decide (b.score ≤ a.score))

/-- The `for results, weight in zip(result_sets, weights)` loop of
`_weighted_fusion`.  Each iteration first evaluates
`if self.normalize_scores:` — that attribute is the boolean stored by
`__init__` (it shadows the method of the same name), so the branch body
`self.normalize_scores(results.copy())` calls a boolean and raises
`TypeError`; otherwise the inner loop merges every result under its
weight. -/
def wLoop (st : ResultFusionState) :
    List (String × SearchResult) → List (List SearchResult × ℚ) →
    Except PyError (List (String × SearchResult))
  | m, [] => Except.ok m
  | m, p :: rest =>
    if st.normalize_scores then Except.error PyError.typeError
    else wLoop st (p.1.foldl (fun m r => wAddResult p.2 m r) m) rest

/-- `ResultFusion._weighted_fusion`: positional weights truncated to the
number of result sets and normalized to sum to 1, then the accumulating
loop, then the merged values sorted descending by score. -/
def ResultFusion.weighted_fusion (st : ResultFusionState)
    (result_sets : List (List SearchResult)) : Except PyError (List SearchResult) :=
  let weights := [st.bm25_weight, st.semantic_weight, st.expansion_weight].take
    result_sets.length
  let total := weights.sum
  let weights := if 0 < total then weights.map (fun w => w / total) else weights
  match wLoop st [] (result_sets.zip weights) with
  | Except.error e => Except.error e
  | Except.ok fused => Except.ok (descBySort (fused.map Prod.snd))

/-- One step of `_reciprocal_rank_fusion`: record `1/(k + rank)` for a
first-seen document (also storing the document), or accumulate onto the
running total.  The source keeps `rrf_scores` and `documents` as two dicts
updated in lockstep under the same key; they are modelled as one dict
holding the pair. -/
def rrfAddScore (m : List (String × Document × ℚ)) (doc : Document) (sc : ℚ) :
    List (String × Document × ℚ) :=
  match alookup m doc.id with
  | none => m ++ [(doc.id, (doc, sc))]
  | some _ => aupd m doc.id (fun p => (p.1, p.2 + sc))

/-- The `for rank, result in enumerate(results, start=1)` loop of
`_reciprocal_rank_fusion` over one result list. -/
def rrfList (k : ℚ) : List (String × Document × ℚ) → Nat → List SearchResult →
    List (String × Document × ℚ)
  | m, _, [] => m
  | m, rank, r :: rest =>
    rrfList k (rrfAddScore m r.document (1 / (k + (rank : ℚ)))) (rank + 1) rest

/-- `ResultFusion._reciprocal_rank_fusion`: accumulate the reciprocal-rank
totals over every list, build one `SearchResult` per document (component
scores defaulted), sort descending by score. -/
def ResultFusion.reciprocal_rank_fusion (st : ResultFusionState)
    (result_sets : List (List SearchResult)) : List SearchResult :=
  let m := result_sets.foldl (fun m results => rrfList st.k_rrf m 1 results) []
  descBySort (m.map (fun e => { document := e.2.1, score := e.2.2 }))

/-- `ResultFusion.fuse`: no input lists gives no output, a single list is
returned unchanged, otherwise dispatch on the strategy name with the
fallback to weighted fusion. -/
def ResultFusion.fuse (st : ResultFusionState) (result_sets : List (List SearchResult)) :
    Except PyError (List SearchResult) :=
  match result_sets with
  | [] => Except.ok []
  | [l] => Except.ok l
  | l₁ :: l₂ :: rest =>
    if st.fusion_strategy = "weighted" then
      ResultFusion.weighted_fusion st (l₁ :: l₂ :: rest)
    else if st.fusion_strategy = "rrf" then
      Except.ok (ResultFusion.reciprocal_rank_fusion st (l₁ :: l₂ :: rest))
    else ResultFusion.weighted_fusion st (l₁ :: l₂ :: rest)

deriving instance DecidableEq for Except

/-! Concrete fixtures for the fusion claims. -/

/-- Example document 1. -/
def exDoc1 : Document := { id := "1", content := "alpha" }

/-- Example document 2. -/
def exDoc2 : Document := { id := "2", content := "beta" }

/-- Example result: document 1 scored 3. -/
def exSR1 : SearchResult := { document := exDoc1, score := 3 }

/-- Example result: document 2 scored 5. -/
def exSR2 : SearchResult := { document := exDoc2, score := 5 }

/-- Distribute an `if` over the map applied to a cons (used to expose the
head of the normalized weight list without deciding the condition). -/
theorem ite_map_cons {c : Prop} [Decidable c] (f : ℚ → ℚ) (w : ℚ) (ws : List ℚ) :
    (if c then List.map f (w :: ws) else (w :: ws)) =
      (if c then f w else w) :: (if c then ws.map f else ws) := by
  split <;> simp

/-- With `normalize_scores` set (as the boolean attribute shadowing the
method) and at least one result set, `_weighted_fusion` raises `TypeError`
on the first loop iteration. -/
theorem weighted_fusion_error_of_normalize (st : ResultFusionState)
    (h : st.normalize_scores = true) (l₁ : List SearchResult)
    (rest : List (List SearchResult)) :
    ResultFusion.weighted_fusion st (l₁ :: rest) = Except.error PyError.typeError := by
  unfold ResultFusion.weighted_fusion
  rw [List.length_cons, List.take_succ_cons]
  dsimp only
  rw [ite_map_cons]
  simp only [List.zip_cons_cons, wLoop, h, if_true]

/-- Claim C2 (refutation): under the default configuration (weighted
strategy, `normalize_scores` enabled) fusing two singleton result lists
raises `TypeError` instead of returning the normalized weighted merge: the
boolean attribute `self.normalize_scores` set in `__init__` shadows the
`normalize_scores` method, so the per-list call
`self.normalize_scores(results.copy())` calls a `bool`. -/
theorem c2_weighted_fusion_raises_typeerror :
    ResultFusion.fuse (ResultFusion.init {}) [[exSR1], [exSR2]] =
      Except.error PyError.typeError := by
  show ResultFusion.weighted_fusion _ _ = _
  exact weighted_fusion_error_of_normalize _ rfl _ _

/-! ### Dict lemmas for the fusion proofs -/

theorem aupd_cons {α : Type} (p : String × α) (t : List (String × α)) (k : String)
    (f : α → α) :
    aupd (p :: t) k f = (if p.1 = k then (p.1, f p.2) else p) :: aupd t k f := rfl

theorem alookup_aupd {α : Type} (m : List (String × α)) (k id : String) (f : α → α) :
    alookup (aupd m k f) id =
      if id = k then (alookup m id).map f else alookup m id := by
  induction m with
  | nil => by_cases h : id = k <;> simp [aupd, alookup, h]
  | cons p t ih =>
    rw [aupd_cons]
    by_cases hpk : p.1 = k <;> by_cases hpid : p.1 = id
    · have hik : id = k := hpid.symm.trans hpk
      simp [alookup_cons, hpk, hpid, hik, ih]
    · have hik : ¬ id = k := fun h => hpid (hpk.trans h.symm)
      have hki : ¬ k = id := fun h => hik h.symm
      simp [alookup_cons, hpk, hpid, hik, hki, ih]
    · have hik : ¬ id = k := fun h => hpk (hpid.trans h)
      simp [alookup_cons, hpk, hpid, hik, ih]
    · by_cases hik : id = k
      · subst hik
        simp [alookup_cons, hpk, hpid, ih]
      · simp [alookup_cons, hpk, hpid, hik, ih]

/-- Well-formedness of an accumulating dict: no duplicate keys and every
stored value projects (via `pid`) back to its key. -/
def KeysOk {α : Type} (pid : α → String) (m : List (String × α)) : Prop :=
  (m.map Prod.fst).Nodup ∧ ∀ p ∈ m, pid p.2 = p.1

theorem KeysOk.nil {α : Type} (pid : α → String) : KeysOk pid ([] : List (String × α)) :=
  ⟨List.nodup_nil, fun _ h => absurd h (List.not_mem_nil _)⟩

theorem KeysOk.append_new {α : Type} {pid : α → String} {m : List (String × α)}
    {k : String} {v : α} (hm : KeysOk pid m) (habs : alookup m k = none)
    (hv : pid v = k) : KeysOk pid (m ++ [(k, v)]) := by
  constructor
  · rw [List.map_append]
    have hk : k ∉ m.map Prod.fst := (alookup_eq_none_iff m k).mp habs
    simp [List.nodup_append, hm.1, hk]
  · intro p hp
    rcases List.mem_append.mp hp with h | h
    · exact hm.2 p h
    · rcases List.mem_singleton.mp h with rfl
      exact hv

theorem KeysOk.update {α : Type} {pid : α → String} {m : List (String × α)}
    {k : String} {f : α → α} (hm : KeysOk pid m) (hf : ∀ a, pid (f a) = pid a) :
    KeysOk pid (aupd m k f) := by
  constructor
  · rw [aupd_map_fst]; exact hm.1
  · intro q hq
    rcases mem_aupd hq with ⟨p, hp, rfl⟩
    by_cases h : p.1 = k
    · rw [if_pos h]
      show pid (f p.2) = p.1
      rw [hf]
      exact hm.2 p hp
    · rw [if_neg h]
      exact hm.2 p hp

/-- Ids of the stored values coincide (as a list) with the keys. -/
theorem values_ids_eq_keys {α : Type} {pid : α → String} {m : List (String × α)}
    (hm : KeysOk pid m) : m.map (fun p => pid p.2) = m.map Prod.fst :=
  List.map_congr_left (fun p hp => hm.2 p hp)

/-- `descBySort` permutes its input. -/
theorem descBySort_perm (l : List SearchResult) : (descBySort l).Perm l :=
  List.mergeSort_perm l _

/-! ### Reciprocal rank fusion: invariants and the score formula -/

/-- The running RRF total a dict stores for a document id (`0` if the id is
not present). -/
def rrfScoreOf (m : List (String × Document × ℚ)) (id : String) : ℚ :=
  match alookup m id with
  | some e => e.2
  | none => 0

/-- What the spec says one list contributes to a document id: `1/(k + r)`
at each 1-based rank `r` whose result carries that id. -/
def rrfSpecListTotal (k : ℚ) (id : String) : Nat → List SearchResult → ℚ
  | _, [] => 0
  | rank, r :: rest =>
    (if r.document.id = id then 1 / (k + (rank : ℚ)) else 0) +
      rrfSpecListTotal k id (rank + 1) rest

/-- What the spec says the fused total of a document id is: the sum over
all lists of the per-list reciprocal-rank contributions. -/
def rrfSpecTotal (k : ℚ) (rs : List (List SearchResult)) (id : String) : ℚ :=
  (rs.map (fun l => rrfSpecListTotal k id 1 l)).sum

theorem rrfScoreOf_nil (id : String) : rrfScoreOf [] id = 0 := rfl

theorem rrfScoreOf_addScore (m : List (String × Document × ℚ)) (doc : Document)
    (sc : ℚ) (id : String) :
    rrfScoreOf (rrfAddScore m doc sc) id =
      if id = doc.id then rrfScoreOf m id + sc else rrfScoreOf m id := by
  by_cases h : id = doc.id
  · subst h
    rw [if_pos rfl]
    unfold rrfAddScore
    cases hl : alookup m doc.id with
    | none =>
      unfold rrfScoreOf
      rw [alookup_append, hl]
      simp [alookup_cons]
    | some e =>
      unfold rrfScoreOf
      rw [alookup_aupd, if_pos rfl, hl]
      simp
  · rw [if_neg h]
    have h2 : ¬ doc.id = id := fun hh => h hh.symm
    unfold rrfAddScore
    cases hl : alookup m doc.id with
    | none =>
      unfold rrfScoreOf
      rw [alookup_append]
      have hsing : alookup [(doc.id, (doc, sc))] id = none := by
        rw [alookup_cons, if_neg h2]
        rfl
      rw [hsing, Option.or_none]
    | some e =>
      unfold rrfScoreOf
      rw [alookup_aupd, if_neg h]

theorem rrfAddScore_keysOk {m : List (String × Document × ℚ)} (doc : Document)
    (sc : ℚ) (hm : KeysOk (fun e => e.1.id) m) :
    KeysOk (fun e => e.1.id) (rrfAddScore m doc sc) := by
  unfold rrfAddScore
  cases hl : alookup m doc.id with
  | none => exact hm.append_new hl rfl
  | some e => exact hm.update (fun a => rfl)

theorem rrfList_keysOk (k : ℚ) :
    ∀ (l : List SearchResult) (m : List (String × Document × ℚ)) (rank : Nat),
      KeysOk (fun e => e.1.id) m → KeysOk (fun e => e.1.id) (rrfList k m rank l) := by
  intro l
  induction l with
  | nil => intro m rank hm; exact hm
  | cons r rest ih =>
    intro m rank hm
    exact ih _ _ (rrfAddScore_keysOk _ _ hm)

theorem rrfFold_keysOk (k : ℚ) :
    ∀ (rs : List (List SearchResult)) (m : List (String × Document × ℚ)),
      KeysOk (fun e => e.1.id) m →
      KeysOk (fun e => e.1.id) (rs.foldl (fun m results => rrfList k m 1 results) m) := by
  intro rs
  induction rs with
  | nil => intro m hm; exact hm
  | cons l rest ih =>
    intro m hm
    exact ih _ (rrfList_keysOk k l m 1 hm)

theorem rrfList_score (k : ℚ) :
    ∀ (l : List SearchResult) (m : List (String × Document × ℚ)) (rank : Nat)
      (id : String),
      rrfScoreOf (rrfList k m rank l) id =
        rrfScoreOf m id + rrfSpecListTotal k id rank l := by
  intro l
  induction l with
  | nil => intro m rank id; simp [rrfList, rrfSpecListTotal]
  | cons r rest ih =>
    intro m rank id
    rw [rrfList, ih, rrfScoreOf_addScore, rrfSpecListTotal]
    by_cases h : id = r.document.id
    · rw [if_pos h, if_pos h.symm]
      ring
    · rw [if_neg h, if_neg (fun hh => h hh.symm)]
      ring

theorem rrfFold_score (k : ℚ) :
    ∀ (rs : List (List SearchResult)) (m : List (String × Document × ℚ)) (id : String),
      rrfScoreOf (rs.foldl (fun m results => rrfList k m 1 results) m) id =
        rrfScoreOf m id + rrfSpecTotal k rs id := by
  intro rs
  induction rs with
  | nil => intro m id; simp [rrfSpecTotal]
  | cons l rest ih =>
    intro m id
    rw [List.foldl_cons, ih, rrfList_score]
    unfold rrfSpecTotal
    rw [List.map_cons, List.sum_cons]
    ring

theorem rrfList_congr (k : ℚ) :
    ∀ (l₁ l₂ : List SearchResult),
      l₁.map SearchResult.document = l₂.map SearchResult.document →
      ∀ (m : List (String × Document × ℚ)) (rank : Nat),
        rrfList k m rank l₁ = rrfList k m rank l₂ := by
  intro l₁
  induction l₁ with
  | nil =>
    intro l₂ h m rank
    rw [List.map_nil] at h
    rw [List.eq_nil_of_map_eq_nil h.symm]
  | cons r₁ t₁ ih =>
    intro l₂ h m rank
    cases l₂ with
    | nil => exact absurd h (by simp)
    | cons r₂ t₂ =>
      rw [List.map_cons, List.map_cons] at h
      have hdoc : r₁.document = r₂.document := (List.cons_eq_cons.mp h).1
      have htail := (List.cons_eq_cons.mp h).2
      rw [rrfList, rrfList, hdoc, ih t₂ htail]

theorem rrfFold_congr (k : ℚ) :
    ∀ (rs₁ rs₂ : List (List SearchResult)),
      rs₁.map (List.map SearchResult.document) = rs₂.map (List.map SearchResult.document) →
      ∀ m : List (String × Document × ℚ),
        rs₁.foldl (fun m results => rrfList k m 1 results) m =
          rs₂.foldl (fun m results => rrfList k m 1 results) m := by
  intro rs₁
  induction rs₁ with
  | nil =>
    intro rs₂ h m
    rw [List.map_nil] at h
    rw [List.eq_nil_of_map_eq_nil h.symm]
  | cons l₁ t₁ ih =>
    intro rs₂ h m
    cases rs₂ with
    | nil => exact absurd h (by simp)
    | cons l₂ t₂ =>
      rw [List.map_cons, List.map_cons] at h
      have hl : l₁.map SearchResult.document = l₂.map SearchResult.document :=
        (List.cons_eq_cons.mp h).1
      have ht := (List.cons_eq_cons.mp h).2
      rw [List.foldl_cons, List.foldl_cons, rrfList_congr k l₁ l₂ hl, ih t₂ ht]

/-- Claim C5: RRF fusion is rank-based.  (1) Its output depends only on
the per-list document sequences — replacing any list's scores by any
other scores (in particular strictly rank-preserving ones) leaves the
fused output unchanged.  (2) Every fused result's score is the sum over
the input lists of `1/(k_rrf + r)` over the 1-based ranks `r` at which its
document id occurs.  (3) The default `k_rrf` is 10. -/
theorem c5_rrf_rank_based :
    (∀ (st : ResultFusionState) (rs₁ rs₂ : List (List SearchResult)),
      rs₁.map (List.map SearchResult.document) = rs₂.map (List.map SearchResult.document) →
      ResultFusion.reciprocal_rank_fusion st rs₁ =
        ResultFusion.reciprocal_rank_fusion st rs₂) ∧
    (∀ (st : ResultFusionState) (rs : List (List SearchResult)) (r : SearchResult),
      r ∈ ResultFusion.reciprocal_rank_fusion st rs →
      r.score = rrfSpecTotal st.k_rrf rs r.document.id) ∧
    (ResultFusion.init {}).k_rrf = 10 := by
  refine ⟨?_, ?_, rfl⟩
  · intro st rs₁ rs₂ h
    unfold ResultFusion.reciprocal_rank_fusion
    rw [rrfFold_congr st.k_rrf rs₁ rs₂ h]
  · intro st rs r hr
    unfold ResultFusion.reciprocal_rank_fusion at hr
    have hr' := (descBySort_perm _).mem_iff.mp hr
    rcases List.mem_map.mp hr' with ⟨e, he, rfl⟩
    have hOk := rrfFold_keysOk st.k_rrf rs [] (KeysOk.nil _)
    have hid : e.2.1.id = e.1 := hOk.2 e he
    have hlook : alookup (rs.foldl (fun m results => rrfList st.k_rrf m 1 results) []) e.1 =
        some e.2 := alookup_of_mem_nodup hOk.1 (by exact he)
    have hscore : rrfScoreOf (rs.foldl (fun m results => rrfList st.k_rrf m 1 results) []) e.1 =
        e.2.2 := by rw [rrfScoreOf, hlook]
    have htotal := rrfFold_score st.k_rrf rs [] e.1
    rw [hscore, rrfScoreOf_nil, zero_add] at htotal
    simpa [hid] using htotal

/-- Second copy of the example results with the same documents but
different (rank-preserving) scores. -/
def exSR1v2 : SearchResult := { document := exDoc1, score := 100 }

/-- Second copy of example result 2, score changed. -/
def exSR2v2 : SearchResult := { document := exDoc2, score := 7 }

/-- The single fused result of RRF on `[[exSR1]]` with the default `k`. -/
def exOutR : SearchResult := { document := exDoc1, score := 1 / (10 + ((1 : ℕ) : ℚ)) }

/-- Claim C5 witness: the invariance conjunct applied to two concrete
inputs with identical documents and different scores, and the formula
conjunct applied to the fused output of `[[exSR1]]`. -/
theorem c5_rrf_rank_based_witness :
    ResultFusion.reciprocal_rank_fusion (ResultFusion.init {}) [[exSR1], [exSR2]] =
      ResultFusion.reciprocal_rank_fusion (ResultFusion.init {}) [[exSR1v2], [exSR2v2]] ∧
    exOutR.score = rrfSpecTotal (ResultFusion.init {}).k_rrf [[exSR1]] exOutR.document.id := by
  have hmem : exOutR ∈ ResultFusion.reciprocal_rank_fusion (ResultFusion.init {}) [[exSR1]] := by
    unfold ResultFusion.reciprocal_rank_fusion descBySort
    refine (List.mergeSort_perm _ _).mem_iff.mpr ?_
    simp [rrfList, rrfAddScore, alookup, exOutR, exSR1, ResultFusion.init]
  exact ⟨c5_rrf_rank_based.1 _ _ _ rfl, c5_rrf_rank_based.2.1 _ _ _ hmem⟩

/-! ### Output ids are unique (both fusion strategies) -/

theorem wUpdateExisting_document (cur r : SearchResult) (w : ℚ) :
    (wUpdateExisting cur r w).document = cur.document := rfl

theorem wAddResult_keysOk {m : List (String × SearchResult)} (w : ℚ) (r : SearchResult)
    (hm : KeysOk (fun v => v.document.id) m) :
    KeysOk (fun v => v.document.id) (wAddResult w m r) := by
  unfold wAddResult
  cases hl : alookup m r.document.id with
  | none => exact hm.append_new hl rfl
  | some e => exact hm.update (fun a => rfl)

theorem wfold_list_keysOk (w : ℚ) (l : List SearchResult) :
    ∀ m, KeysOk (fun v => v.document.id) m →
      KeysOk (fun v => v.document.id) (l.foldl (fun m r => wAddResult w m r) m) := by
  induction l with
  | nil => intro m hm; exact hm
  | cons r rest ih => intro m hm; exact ih _ (wAddResult_keysOk w r hm)

theorem wfold_pairs_keysOk (pairs : List (List SearchResult × ℚ)) :
    ∀ m, KeysOk (fun v => v.document.id) m →
      KeysOk (fun v => v.document.id)
        (pairs.foldl (fun m p => p.1.foldl (fun m r => wAddResult p.2 m r) m) m) := by
  induction pairs with
  | nil => intro m hm; exact hm
  | cons x xs ih => intro m hm; exact ih _ (wfold_list_keysOk x.2 x.1 m hm)

/-- With normalization disabled, the per-list loop of `_weighted_fusion`
never errors and computes the pure fold. -/
theorem wLoop_ok (st : ResultFusionState) (hn : st.normalize_scores = false) :
    ∀ (pairs : List (List SearchResult × ℚ)) (init : List (String × SearchResult)),
      wLoop st init pairs =
        Except.ok
          (pairs.foldl (fun m p => p.1.foldl (fun m r => wAddResult p.2 m r) m) init) := by
  intro pairs
  induction pairs with
  | nil => intro init; rfl
  | cons x xs ih =>
    intro init
    simp only [wLoop, hn, Bool.false_eq_true, if_false, List.foldl_cons]
    exact ih _

/-- Sorting the values of a well-formed dict yields pairwise-distinct
document ids. -/
theorem descBySort_ids_nodup {β : Type} (m : List (String × β)) (pid : β → String)
    (mkR : β → SearchResult) (hmk : ∀ b, (mkR b).document.id = pid b)
    (hOk : KeysOk pid m) :
    ((descBySort (m.map (fun p => mkR p.2))).map (fun r => r.document.id)).Nodup := by
  have hperm := (descBySort_perm (m.map (fun p => mkR p.2))).map (fun r => r.document.id)
  refine hperm.nodup_iff.mpr ?_
  rw [List.map_map]
  have heq : m.map ((fun r => r.document.id) ∘ fun p => mkR p.2) = m.map Prod.fst :=
    List.map_congr_left (fun p hp => (hmk p.2).trans (hOk.2 p hp))
  rw [heq]
  exact hOk.1

theorem weighted_fusion_ok_nodup (st : ResultFusionState)
    (rs : List (List SearchResult)) (out : List SearchResult)
    (h : ResultFusion.weighted_fusion st rs = Except.ok out) :
    (out.map (fun r => r.document.id)).Nodup := by
  cases hn : st.normalize_scores with
  | true =>
    cases rs with
    | nil =>
      unfold ResultFusion.weighted_fusion at h
      simp only [List.zip_nil_left, wLoop] at h
      have hout : out = descBySort (List.map Prod.snd []) := (Except.ok.inj h).symm
      rw [hout]
      simp [descBySort]
    | cons l rest =>
      rw [weighted_fusion_error_of_normalize st hn l rest] at h
      exact absurd h (by simp)
  | false =>
    unfold ResultFusion.weighted_fusion at h
    dsimp only at h
    rw [wLoop_ok st hn] at h
    have hout := (Except.ok.inj h).symm
    rw [hout]
    exact descBySort_ids_nodup _ (fun v : SearchResult => v.document.id)
      (fun v : SearchResult => v) (fun b => rfl)
      (wfold_pairs_keysOk _ _ (KeysOk.nil _))

theorem rrf_ids_nodup (st : ResultFusionState) (rs : List (List SearchResult)) :
    ((ResultFusion.reciprocal_rank_fusion st rs).map (fun r => r.document.id)).Nodup := by
  unfold ResultFusion.reciprocal_rank_fusion
  exact descBySort_ids_nodup _ (fun v : Document × ℚ => v.1.id)
    (fun v : Document × ℚ => { document := v.1, score := v.2 })
    (fun b => rfl) (rrfFold_keysOk st.k_rrf rs [] (KeysOk.nil _))

/-- Claim C10: whenever `fuse` is called on two or more result lists and
returns normally, no document id occurs twice in the output — both
strategies accumulate into a dict keyed by document id. -/
theorem c10_fused_ids_unique :
    ∀ (st : ResultFusionState) (rs : List (List SearchResult)) (out : List SearchResult),
      2 ≤ rs.length → ResultFusion.fuse st rs = Except.ok out →
      (out.map (fun r => r.document.id)).Nodup := by
  intro st rs out hlen hfuse
  cases rs with
  | nil => exact absurd hlen (by simp)
  | cons l₁ rs' =>
    cases rs' with
    | nil => exact absurd hlen (by simp)
    | cons l₂ rest =>
      unfold ResultFusion.fuse at hfuse
      dsimp only at hfuse
      by_cases hw : st.fusion_strategy = "weighted"
      · rw [if_pos hw] at hfuse
        exact weighted_fusion_ok_nodup st _ out hfuse
      · rw [if_neg hw] at hfuse
        by_cases hr : st.fusion_strategy = "rrf"
        · rw [if_pos hr] at hfuse
          have hout := (Except.ok.inj hfuse).symm
          rw [hout]
          exact rrf_ids_nodup st _
        · rw [if_neg hr] at hfuse
          exact weighted_fusion_ok_nodup st _ out hfuse

/-- The single fused result of RRF on `[[exSR1], [exSR1v2]]` (same document
in both lists) with the default `k`. -/
def exOutRrf : SearchResult :=
  { document := exDoc1, score := 1 / (10 + ((1 : ℕ) : ℚ)) + 1 / (10 + ((1 : ℕ) : ℚ)) }

/-- Claim C10 witness: the theorem applied to a successful concrete fusion
(RRF strategy, the same document appearing in both input lists). -/
theorem c10_fused_ids_unique_witness :
    2 ≤ ([[exSR1], [exSR1v2]] : List (List SearchResult)).length ∧
    ResultFusion.fuse (ResultFusion.init { fusion_strategy := some "rrf" })
      [[exSR1], [exSR1v2]] = Except.ok [exOutRrf] ∧
    (([exOutRrf] : List SearchResult).map (fun r => r.document.id)).Nodup := by
  have hfuse : ResultFusion.fuse (ResultFusion.init { fusion_strategy := some "rrf" })
      [[exSR1], [exSR1v2]] = Except.ok [exOutRrf] := by
    simp [ResultFusion.fuse, ResultFusion.init, ResultFusion.reciprocal_rank_fusion,
      descBySort, rrfList, rrfAddScore, alookup, aupd, exSR1, exSR1v2, exOutRrf,
      exDoc1]
  exact ⟨by simp, hfuse,
    c10_fused_ids_unique (ResultFusion.init { fusion_strategy := some "rrf" })
      [[exSR1], [exSR1v2]] [exOutRrf] (by simp) hfuse⟩

/-! ## BM25 keyword search (`bm25.py`)

The preprocessor handed to `BM25Indexer` is taken as a function
`pre : String → List String` (the indexer only ever calls
`self.preprocessor.preprocess`). -/

/-- State of `BM25Indexer`. -/
structure BM25IndexerState where
  documents : List (String × Document) := []
  tokenized_corpus : List (List String) := []
  doc_ids : List String := []
  doc_lengths : List (String × Nat) := []
  avg_doc_length : ℚ := 0

/-- `BM25Indexer.add_document`: a no-op when the id is already present;
otherwise preprocess the content, cache the tokens on the document, append
to every parallel structure and recompute the average document length
(`sum(lengths)/count`, only when the length dict is non-empty). -/
def BM25Indexer.add_document (pre : String → List String) (st : BM25IndexerState)
    (doc : Document) : BM25IndexerState :=
  if (alookup st.documents doc.id).isSome then st
  else
    let tokens := pre doc.content
    let doc' := { doc with tokens := tokens }
    let documents := aset st.documents doc.id doc'
    let doc_lengths := aset st.doc_lengths doc.id tokens.length
    { documents := documents
      tokenized_corpus := st.tokenized_corpus ++ [tokens]
      doc_ids := st.doc_ids ++ [doc.id]
      doc_lengths := doc_lengths
      avg_doc_length :=
        if doc_lengths.isEmpty then st.avg_doc_length
        else ((doc_lengths.map (fun p => (p.2 : ℚ))).sum) / (doc_lengths.length : ℚ) }

/-- `BM25Indexer.add_documents`: repeated `add_document`. -/
def BM25Indexer.add_documents (pre : String → List String) (st : BM25IndexerState)
    (docs : List Document) : BM25IndexerState :=
  docs.foldl (BM25Indexer.add_document pre) st

/-- State of `BM25Searcher`: the three tuning parameters (source defaults),
the indexer, and whether `self.bm25_model` has been built (it is `None`
until a non-empty corpus is indexed or loaded). -/
structure BM25SearcherState where
  k1 : ℚ := 1.5
  b : ℚ := 0.75
  epsilon : ℚ := 0.25
  indexer : BM25IndexerState := {}
  modelInit : Bool := false

/-- `BM25Searcher.index_documents`: add the documents, then build the BM25
model if the tokenized corpus is non-empty (otherwise `bm25_model` keeps
its previous value). -/
def BM25Searcher.index_documents (pre : String → List String) (st : BM25SearcherState)
    (docs : List Document) : BM25SearcherState :=
  let ix := BM25Indexer.add_documents pre st.indexer docs
  { st with
    indexer := ix
    modelInit := if ix.tokenized_corpus.isEmpty then st.modelInit else true }

/-- `BM25Searcher.get_document_frequency`: `0` while the model is absent;
otherwise lowercase the term and count the corpus token lists containing
it. -/
def BM25Searcher.get_document_frequency (st : BM25SearcherState) (term : String) : Nat :=
  if st.modelInit = false then 0
  else
    st.indexer.tokenized_corpus.foldl
      (fun count doc_tokens => if pyLower term ∈ doc_tokens then count + 1 else count) 0

/-- `BM25Searcher.get_idf`: `0.0` while the model is absent or when the
document frequency is `0`; otherwise `ln((N - df + 0.5)/(df + 0.5))` with
`N = len(self.indexer.documents)`. -/
noncomputable def BM25Searcher.get_idf (st : BM25SearcherState) (term : String) : ℝ :=
  if st.modelInit = false then 0
  else
    let df := BM25Searcher.get_document_frequency st term
    if df = 0 then 0
    else
      Real.log (((st.indexer.documents.length : ℝ) - (df : ℝ) + 1 / 2) / ((df : ℝ) + 1 / 2))

/-- The example BM25 searcher: one indexed document whose content
tokenizes to `["cat"]`. -/
def exBM25 : BM25SearcherState :=
  BM25Searcher.index_documents wsTokenize {} [{ id := "1", content := "cat" }]

example : exBM25.indexer.tokenized_corpus = [["cat"]] := by decide
example : exBM25.modelInit = true := by decide
example : BM25Searcher.get_document_frequency exBM25 "dog" = 0 := by decide
example : BM25Searcher.get_document_frequency exBM25 "cat" = 1 := by decide

/-- Claim C6 (refutation): for the indexed corpus `[["cat"]]` (so `N = 1`)
and the term `"dog"` (document frequency `0`), `get_idf` returns `0.0`,
not `ln((N - df + 0.5)/(df + 0.5)) = ln 3`. -/
theorem c6_get_idf_formula_counterexample :
    BM25Searcher.get_idf exBM25 "dog" ≠
      Real.log (((exBM25.indexer.documents.length : ℝ) -
        (BM25Searcher.get_document_frequency exBM25 "dog" : ℝ) + 1 / 2) /
        ((BM25Searcher.get_document_frequency exBM25 "dog" : ℝ) + 1 / 2)) := by
  have hdf : BM25Searcher.get_document_frequency exBM25 "dog" = 0 := by decide
  have hN : exBM25.indexer.documents.length = 1 := by decide
  have hmi : exBM25.modelInit = true := by decide
  have hidf : BM25Searcher.get_idf exBM25 "dog" = 0 := by
    unfold BM25Searcher.get_idf
    rw [hmi]
    simp [hdf]
  rw [hidf, hdf, hN]
  intro h
  rw [show (((1 : ℕ) : ℝ) - ((0 : ℕ) : ℝ) + 1 / 2) / (((0 : ℕ) : ℝ) + 1 / 2) = (3 : ℝ) by
    norm_num] at h
  have hpos := Real.log_pos (by norm_num : (1 : ℝ) < 3)
  rw [← h] at hpos
  exact lt_irrefl 0 hpos

theorem foldl_count_eq_countP {α : Type} (q : α → Prop) [DecidablePred q] (l : List α) :
    ∀ n : Nat,
      l.foldl (fun c x => if q x then c + 1 else c) n =
        n + l.countP (fun x => decide (q x)) := by
  induction l with
  | nil => intro n; simp
  | cons x xs ih =>
    intro n
    rw [List.foldl_cons, List.countP_cons]
    by_cases h : q x
    · simp [h, ih]
      omega
    · simp [h, ih]

/-- Claim C6 (amended): once the BM25 model exists, `get_document_frequency`
of a term counts the indexed token lists containing the lowercased term,
and `get_idf` equals `ln((N - df + 0.5)/(df + 0.5))` whenever `df ≥ 1`,
while it is `0.0` when `df = 0` (the source guards that case instead of
applying the formula). -/
theorem c6_df_idf_amended :
    ∀ (st : BM25SearcherState) (term : String), st.modelInit = true →
      BM25Searcher.get_document_frequency st term =
        st.indexer.tokenized_corpus.countP (fun toks => decide (pyLower term ∈ toks)) ∧
      (BM25Searcher.get_document_frequency st term ≠ 0 →
        BM25Searcher.get_idf st term =
          Real.log (((st.indexer.documents.length : ℝ) -
            (BM25Searcher.get_document_frequency st term : ℝ) + 1 / 2) /
            ((BM25Searcher.get_document_frequency st term : ℝ) + 1 / 2))) ∧
      (BM25Searcher.get_document_frequency st term = 0 →
        BM25Searcher.get_idf st term = 0) := by
  intro st term hmi
  refine ⟨?_, ?_, ?_⟩
  · unfold BM25Searcher.get_document_frequency
    rw [hmi]
    simp only [Bool.true_eq_false, if_false]
    rw [foldl_count_eq_countP (fun toks => pyLower term ∈ toks)]
    simp
  · intro hdf
    unfold BM25Searcher.get_idf
    rw [hmi]
    simp only [Bool.true_eq_false, if_false]
    rw [if_neg hdf]
  · intro hdf
    unfold BM25Searcher.get_idf
    rw [hmi]
    simp [hdf]

/-- Claim C6 amended witness: the amended theorem applied to the example
searcher and the term `"cat"` (document frequency 1). -/
theorem c6_df_idf_amended_witness :
    BM25Searcher.get_document_frequency exBM25 "cat" =
      exBM25.indexer.tokenized_corpus.countP (fun toks => decide (pyLower "cat" ∈ toks)) ∧
    BM25Searcher.get_idf exBM25 "cat" =
      Real.log (((exBM25.indexer.documents.length : ℝ) -
        (BM25Searcher.get_document_frequency exBM25 "cat" : ℝ) + 1 / 2) /
        ((BM25Searcher.get_document_frequency exBM25 "cat" : ℝ) + 1 / 2)) :=
  ⟨(c6_df_idf_amended exBM25 "cat" (by decide)).1,
    (c6_df_idf_amended exBM25 "cat" (by decide)).2.1 (by decide)⟩

/-! ## Semantic search (`semantic.py`)

The sentence-transformer is the black-box `model : String → V`; `np.zeros`
rows are the supplied `zeroV`. -/

/-- The cache-partition pass of `EmbeddingGenerator.encode_batch`: walk the
enumerated texts, collecting `(index, cached_embedding)` pairs for cache
hits and `(index, text)` pairs for misses (the source keeps the miss
indices and texts in two parallel lists appended in lockstep; they are
modelled as one list of pairs). -/
def splitCached {V : Type} (cacheEnabled : Bool) (cache : List (String × V)) :
    List (Nat × String) → List (Nat × V) × List (Nat × String)
  | [] => ([], [])
  | (i, t) :: rest =>
    let r := splitCached cacheEnabled cache rest
    if cacheEnabled then
      match alookup cache t with
      | some e => ((i, e) :: r.1, r.2)
      | none => (r.1, (i, t) :: r.2)
    else (r.1, (i, t) :: r.2)

/-- `EmbeddingGenerator.encode_batch`: partition into cache hits and
misses, run the model on the batch of misses, cache the fresh embeddings,
then fill an `np.zeros`-initialized output — cached rows at their original
indices, fresh rows at theirs.  Returns (embeddings, new cache, the texts
the model was invoked on). -/
def encode_batch {V : Type} (model : String → V) (zeroV : V) (cacheEnabled : Bool)
    (cache : List (String × V)) (texts : List String) :
    List V × List (String × V) × List String :=
  let part := splitCached cacheEnabled cache texts.enum
  let cached := part.1
  let uncached := part.2
  let new_embeddings := (uncached.map Prod.snd).map model
  let cache' :=
    if cacheEnabled then
      ((uncached.map Prod.snd).zip new_embeddings).foldl (fun c p => aset c p.1 p.2) cache
    else cache
  let base := List.replicate texts.length zeroV
  let filled := cached.foldl (fun l p => l.set p.1 p.2) base
  let filled := ((uncached.map Prod.fst).zip new_embeddings).foldl
    (fun l p => l.set p.1 p.2) filled
  (filled, cache', uncached.map Prod.snd)

/-- What the spec expects position `i` to hold: the cached embedding on a
hit, the freshly computed one on a miss. -/
def cacheOr {V : Type} (model : String → V) (cache : List (String × V)) (t : String) : V :=
  match alookup cache t with
  | some e => e
  | none => model t

/-- The combined assignment list of `encode_batch`: cache hits followed by
the model outputs for the misses, each tagged with its input index. -/
def splitA {V : Type} (model : String → V) (cache : List (String × V))
    (l : List (Nat × String)) : List (Nat × V) :=
  (splitCached true cache l).1 ++
    (splitCached true cache l).2.map (fun p => (p.1, model p.2))

theorem splitCached_cons_hit {V : Type} (cache : List (String × V)) (j : Nat)
    (s : String) (e : V) (rest : List (Nat × String)) (hl : alookup cache s = some e) :
    splitCached true cache ((j, s) :: rest) =
      ((j, e) :: (splitCached true cache rest).1, (splitCached true cache rest).2) := by
  simp [splitCached, hl]

theorem splitCached_cons_miss {V : Type} (cache : List (String × V)) (j : Nat)
    (s : String) (rest : List (Nat × String)) (hl : alookup cache s = none) :
    splitCached true cache ((j, s) :: rest) =
      ((splitCached true cache rest).1, (j, s) :: (splitCached true cache rest).2) := by
  simp [splitCached, hl]

theorem splitA_mem {V : Type} (model : String → V) (cache : List (String × V)) :
    ∀ (l : List (Nat × String)) (i : Nat) (t : String), (i, t) ∈ l →
      (i, cacheOr model cache t) ∈ splitA model cache l := by
  intro l
  induction l with
  | nil => intro i t h; cases h
  | cons p rest ih =>
    obtain ⟨j, s⟩ := p
    intro i t hmem
    cases hl : alookup cache s with
    | some e =>
      unfold splitA
      rw [splitCached_cons_hit cache j s e rest hl]
      rcases List.mem_cons.mp hmem with heq | htail
      · obtain ⟨rfl, rfl⟩ := Prod.mk.injEq .. ▸ heq
        · have : cacheOr model cache t = e := by unfold cacheOr; rw [hl]
          rw [this]
          exact List.mem_cons_self _ _
      · have := ih i t htail
        unfold splitA at this
        rcases List.mem_append.mp this with h | h
        · exact List.mem_cons_of_mem _ (List.mem_append.mpr (Or.inl h))
        · exact List.mem_cons_of_mem _ (List.mem_append.mpr (Or.inr h))
    | none =>
      unfold splitA
      rw [splitCached_cons_miss cache j s rest hl]
      rcases List.mem_cons.mp hmem with heq | htail
      · obtain ⟨rfl, rfl⟩ := Prod.mk.injEq .. ▸ heq
        · have : cacheOr model cache t = model t := by unfold cacheOr; rw [hl]
          rw [this]
          refine List.mem_append.mpr (Or.inr ?_)
          exact List.mem_map.mpr ⟨(i, t), List.mem_cons_self _ _, rfl⟩
      · have := ih i t htail
        unfold splitA at this
        rcases List.mem_append.mp this with h | h
        · exact List.mem_append.mpr (Or.inl h)
        · refine List.mem_append.mpr (Or.inr ?_)
          rw [List.map_cons]
          exact List.mem_cons_of_mem _ h


theorem splitA_fst_perm {V : Type} (model : String → V) (cache : List (String × V)) :
    ∀ l : List (Nat × String),
      ((splitA model cache l).map Prod.fst).Perm (l.map Prod.fst) := by
  intro l
  induction l with
  | nil => exact List.Perm.refl _
  | cons p rest ih =>
    obtain ⟨j, s⟩ := p
    cases hl : alookup cache s with
    | some e =>
      unfold splitA
      rw [splitCached_cons_hit cache j s e rest hl]
      rw [List.cons_append, List.map_cons, List.map_cons]
      exact ih.cons j
    | none =>
      unfold splitA
      rw [splitCached_cons_miss cache j s rest hl]
      dsimp only
      rw [List.map_append, List.map_cons, List.map_cons]
      refine List.Perm.trans List.perm_middle ?_
      refine List.Perm.cons j ?_
      unfold splitA at ih
      rw [List.map_append] at ih
      exact ih

theorem splitCached_snd_filter {V : Type} (cache : List (String × V)) :
    ∀ l : List (Nat × String),
      (splitCached true cache l).2.map Prod.snd =
        (l.map Prod.snd).filter (fun t => (alookup cache t).isNone) := by
  intro l
  induction l with
  | nil => rfl
  | cons p rest ih =>
    obtain ⟨j, s⟩ := p
    cases hl : alookup cache s with
    | some e =>
      rw [splitCached_cons_hit cache j s e rest hl]
      dsimp only
      rw [List.map_cons, List.filter_cons]
      simp [hl, ih]
    | none =>
      rw [splitCached_cons_miss cache j s rest hl]
      dsimp only
      rw [List.map_cons, List.map_cons, List.filter_cons]
      simp [hl, ih]

theorem foldl_set_length {A : Type} (assignments : List (Nat × A)) :
    ∀ init : List A,
      (assignments.foldl (fun l p => l.set p.1 p.2) init).length = init.length := by
  induction assignments with
  | nil => intro init; rfl
  | cons x xs ih =>
    intro init
    rw [List.foldl_cons, ih, List.length_set]

theorem foldl_set_getElem_not_mem {A : Type} (assignments : List (Nat × A)) :
    ∀ (init : List A) (i : Nat), i ∉ assignments.map Prod.fst →
      (assignments.foldl (fun l p => l.set p.1 p.2) init)[i]? = init[i]? := by
  induction assignments with
  | nil => intro init i _; rfl
  | cons x xs ih =>
    intro init i hni
    rw [List.map_cons] at hni
    have h1 : i ∉ xs.map Prod.fst := fun h => hni (List.mem_cons_of_mem _ h)
    have h2 : x.1 ≠ i := fun h => hni (h ▸ List.mem_cons_self _ _)
    rw [List.foldl_cons, ih _ i h1, List.getElem?_set_ne h2]

theorem foldl_set_getElem_mem {A : Type} (assignments : List (Nat × A)) :
    ∀ (init : List A) (i : Nat) (v : A),
      (assignments.map Prod.fst).Nodup → (i, v) ∈ assignments → i < init.length →
      (assignments.foldl (fun l p => l.set p.1 p.2) init)[i]? = some v := by
  induction assignments with
  | nil => intro init i v _ h _; cases h
  | cons x xs ih =>
    intro init i v hnd hmem hlen
    rw [List.map_cons] at hnd
    have hnd' := List.nodup_cons.mp hnd
    rw [List.foldl_cons]
    rcases List.mem_cons.mp hmem with heq | htail
    · subst heq
      have hni : i ∉ xs.map Prod.fst := by simpa using hnd'.1
      rw [foldl_set_getElem_not_mem xs _ i hni]
      exact List.getElem?_set_self (by exact hlen)
    · exact ih _ i v hnd'.2 htail (by rw [List.length_set]; exact hlen)

theorem zip_map_fst_snd {V : Type} (model : String → V) :
    ∀ u : List (Nat × String),
      (u.map Prod.fst).zip ((u.map Prod.snd).map model) =
        u.map (fun p => (p.1, model p.2)) := by
  intro u
  induction u with
  | nil => rfl
  | cons x xs ih =>
    rw [List.map_cons, List.map_cons, List.map_cons, List.zip_cons_cons, ih, List.map_cons]

/-- Claim C8: with caching enabled, `encode_batch` returns exactly one
embedding per input text, position `i` holding the cached embedding of
`texts[i]` on a cache hit and the freshly computed one on a miss, and the
model is invoked exactly on the subsequence of texts absent from the
cache. -/
theorem c8_encode_batch_spec :
    ∀ (V : Type) (model : String → V) (zeroV : V) (cache : List (String × V))
      (texts : List String),
      (encode_batch model zeroV true cache texts).1.length = texts.length ∧
      (∀ i : Nat,
        (encode_batch model zeroV true cache texts).1[i]? =
          (texts[i]?).map (cacheOr model cache)) ∧
      (encode_batch model zeroV true cache texts).2.2 =
        texts.filter (fun t => (alookup cache t).isNone) := by
  intro V model zeroV cache texts
  have hout1 : (encode_batch model zeroV true cache texts).1 =
      (splitA model cache texts.enum).foldl (fun l p => l.set p.1 p.2)
        (List.replicate texts.length zeroV) := by
    unfold encode_batch splitA
    dsimp only
    rw [zip_map_fst_snd, List.foldl_append]
  refine ⟨?_, ?_, ?_⟩
  · rw [hout1, foldl_set_length, List.length_replicate]
  · intro i
    by_cases hi : i < texts.length
    · have ht : texts[i]? = some texts[i] := List.getElem?_eq_getElem hi
      have hmem : (i, texts[i]) ∈ texts.enum := List.mem_enum_iff_getElem?.mpr ht
      have hA := splitA_mem model cache texts.enum i texts[i] hmem
      have hnd : ((splitA model cache texts.enum).map Prod.fst).Nodup := by
        refine (splitA_fst_perm model cache texts.enum).nodup_iff.mpr ?_
        rw [List.enum_map_fst]
        exact List.nodup_range _
      rw [hout1,
        foldl_set_getElem_mem _ _ i _ hnd hA (by rw [List.length_replicate]; exact hi), ht]
      rfl
    · have hge : texts.length ≤ i := Nat.le_of_not_lt hi
      rw [hout1,
        List.getElem?_eq_none (by rw [foldl_set_length, List.length_replicate]; exact hge),
        List.getElem?_eq_none hge]
      rfl
  · unfold encode_batch
    dsimp only
    rw [splitCached_snd_filter, List.enum_map_snd]

/-- The zero embedding row used by the example model (dimension 1). -/
def zeroVec : List ℚ := [0]

/-- State of `SemanticSearcher` (embedding cache of the generator, FAISS
index settings, the vector store with its parallel doc-id list, and the
document dict). -/
structure SemanticSearcherState where
  cache : List (String × List ℚ) := []
  cache_enabled : Bool := true
  index_type : String := "IndexFlatL2"
  is_trained : Bool := false
  vectors : List (List ℚ) := []
  vector_doc_ids : List String := []
  documents : List (String × Document) := []

/-- `VectorIndex.add_vectors`: train first for the IVF variant, then
append the vectors and extend the doc-id list — with no duplicate-id
check. -/
def VectorIndex.add_vectors (st : SemanticSearcherState) (vectors : List (List ℚ))
    (doc_ids : List String) : SemanticSearcherState :=
  let st :=
    if ¬ st.is_trained ∧ st.index_type = "IndexIVFFlat" then
      { st with is_trained := true }
    else st
  { st with
    vectors := st.vectors ++ vectors
    vector_doc_ids := st.vector_doc_ids ++ doc_ids }

/-- `SemanticSearcher.index_documents`: encode all contents (through the
cache), append everything to the vector index, and store each document
(with its embedding) in the id-keyed dict. -/
def SemanticSearcher.index_documents (model : String → List ℚ) (zeroV : List ℚ)
    (st : SemanticSearcherState) (docs : List Document) : SemanticSearcherState :=
  if docs.isEmpty then st
  else
    let texts := docs.map (fun d => d.content)
    let eb := encode_batch model zeroV st.cache_enabled st.cache texts
    let embeddings := eb.1
    let doc_ids := docs.map (fun d => d.id)
    let st' := VectorIndex.add_vectors { st with cache := eb.2.1 } embeddings doc_ids
    { st' with
      documents :=
        (docs.zip embeddings).foldl
          (fun m p => aset m p.1.id { p.1 with embedding := p.2 }) st.documents }

/-- Example document for the idempotence claim. -/
def exDocCat : Document := { id := "1", content := "cat" }

/-- Example embedding model: every text maps to the vector `[1]`. -/
def exModel : String → List ℚ := fun _ => [1]

/-- The semantic state after indexing `exDocCat` once. -/
def exSem1 : SemanticSearcherState :=
  SemanticSearcher.index_documents exModel zeroVec {} [exDocCat]

/-- The semantic state after indexing `exDocCat` twice. -/
def exSem2 : SemanticSearcherState :=
  SemanticSearcher.index_documents exModel zeroVec exSem1 [exDocCat]

example : exSem1.vector_doc_ids = ["1"] := by decide
example : exSem2.vector_doc_ids = ["1", "1"] := by decide
example : exSem2.documents.map Prod.fst = ["1"] := by decide

theorem alookup_aset_of_none {α : Type} (m : List (String × α)) (k : String) (v : α)
    (h : alookup m k = none) : alookup (aset m k v) k = some v := by
  unfold aset
  rw [h]
  dsimp only
  rw [alookup_append, h]
  simp [alookup_cons]

/-- Claim C4 (BM25 half holds, Vector Index half fails): re-adding a
document with an id already present is a no-op for `BM25Indexer`, but
`SemanticSearcher.index_documents` performs no id check — indexing the
same document twice appends a second vector and a second doc-id entry to
the vector index (the id-keyed document dict alone stays deduplicated). -/
theorem c4_insert_idempotence :
    (∀ (pre : String → List String) (st : BM25IndexerState) (doc : Document),
      BM25Indexer.add_document pre (BM25Indexer.add_document pre st doc) doc =
        BM25Indexer.add_document pre st doc) ∧
    exSem1.vector_doc_ids = ["1"] ∧
    exSem2.vector_doc_ids = ["1", "1"] ∧
    exSem2.documents.map Prod.fst = ["1"] := by
  refine ⟨?_, by decide, by decide, by decide⟩
  intro pre st doc
  have hgen : ∀ s : BM25IndexerState, (alookup s.documents doc.id).isSome = true →
      BM25Indexer.add_document pre s doc = s := by
    intro s hs
    unfold BM25Indexer.add_document
    rw [if_pos hs]
  by_cases h : (alookup st.documents doc.id).isSome = true
  · rw [hgen st h]
    exact hgen st h
  · have hnone : alookup st.documents doc.id = none := by
      cases hl : alookup st.documents doc.id with
      | none => rfl
      | some e => exact absurd (by rw [hl]; rfl) h
    have hdocs : (BM25Indexer.add_document pre st doc).documents =
        aset st.documents doc.id { doc with tokens := pre doc.content } := by
      unfold BM25Indexer.add_document
      rw [if_neg h]
    refine hgen _ ?_
    rw [hdocs, alookup_aset_of_none _ _ _ hnone]
    rfl

/-! ## Query expansion (`expansion.py`) and the hybrid orchestrator (`hybrid.py`)

Each expansion strategy (WordNet synonyms, embedding neighbours) is
abstracted as a term generator `String → List String` applied to the query
text; `QueryExpander.expand` resets `query.text` to the original between
strategies, so every strategy sees the original text, and the collected
terms are deduplicated (Python builds `list(set(...))`, whose order is
interpreter-defined; first-occurrence order is used here — no claim below
depends on it), appended to the text as a space-joined suffix and recorded
in `expanded_terms`. -/
def QueryExpander.expand (enabled : Bool) (strategies : List (String → List String))
    (q : Query) : Query :=
  if ¬ enabled then q
  else
    let original := q.text
    let all := strategies.foldl (fun acc g => acc ++ g original) []
    if all.isEmpty then q
    else
      let uniq := all.eraseDups
      { q with
        expanded_terms := uniq
        text := original ++ " " ++ String.intercalate " " uniq }

/-- `HybridSearch._apply_filters`: keep the results whose document carries
every filter key with the required value. -/
def HybridSearch.applyFilters (results : List SearchResult)
    (filters : List (String × String)) : List SearchResult :=
  results.filter
    (fun r => filters.all (fun kv => decide (alookup r.document.metadata kv.1 = some kv.2)))

/-- `self.is_indexed = False` set by `HybridSearch.__init__` (the
`Unindexed` state; only `index_documents` / `load_index` set it to
`True`). -/
def HybridSearch.initIsIndexed : Bool := false

/-- `HybridSearch.search`.  The sub-searchers are the black-box functions
`bm25Search` / `semanticSearch` and the expander is `expander`; besides the
result, the model returns the traces of the queries passed to the BM25
searcher and to the semantic searcher, in call order.  Mirrors the source:
expand the query in place, search BM25 and the vector index with the
(mutated) query, add a second BM25 search on a fresh query built from
`query.text` when expansion produced terms, fuse, filter, truncate. -/
def HybridSearch.search (cfg : ResultFusionState) (is_indexed : Bool)
    (expander : Query → Query)
    (bm25Search : Query → List SearchResult)
    (semanticSearch : Query → List SearchResult)
    (query_text : String) (k : Nat) (min_score : ℚ)
    (filters : List (String × String)) :
    Except PyError (List SearchResult) × List Query × List Query :=
  if is_indexed = false then (Except.ok [], [], [])
  else
    let q0 : Query := { text := query_text, k := k, min_score := min_score, filters := filters }
    let q := expander q0
    let bm25_results := bm25Search q
    let semantic_results := semanticSearch q
    let setsAndCalls :=
      if q.expanded_terms.isEmpty then ([bm25_results, semantic_results], [q])
      else
        let expanded_query : Query :=
          { text := q.text, k := k, min_score := min_score, filters := filters }
        ([bm25_results, semantic_results, bm25Search expanded_query], [q, expanded_query])
    match ResultFusion.fuse cfg setsAndCalls.1 with
    | Except.error e => (Except.error e, setsAndCalls.2, [q])
    | Except.ok fused =>
      let fused := if filters.isEmpty then fused else HybridSearch.applyFilters fused filters
      (Except.ok (fused.take k), setsAndCalls.2, [q])

/-- Claim C9: calling `search` while the engine is still in its initial
`Unindexed` state returns the empty result list without raising, whatever
the components and arguments are (the guard fires before any searcher,
expander or fusion runs — the traces are empty too). -/
theorem c9_search_unindexed_returns_empty :
    ∀ (cfg : ResultFusionState) (expander : Query → Query)
      (bm25Search semanticSearch : Query → List SearchResult)
      (query_text : String) (k : Nat) (min_score : ℚ)
      (filters : List (String × String)),
      HybridSearch.search cfg HybridSearch.initIsIndexed expander bm25Search
        semanticSearch query_text k min_score filters = (Except.ok [], [], []) := by
  intro cfg expander bm25Search semanticSearch query_text k min_score filters
  rfl

/-- The concrete expander of the C3 counterexample: one strategy that
always yields the single term "extra". -/
def exExpander : Query → Query :=
  QueryExpander.expand true [fun _ => ["extra"]]

/-- Claim C3 (refutation): with an indexed engine and an expansion that
yields one term, both BM25 invocations receive the same text — the
already-expanded "cat extra" — because the first BM25 search runs *after*
`expand` rewrote `query.text` and the second is built from that same
`query.text`; the original text "cat" is searched by neither, so the two
BM25 inputs are not the claimed (original, expanded) pair. -/
theorem c3_both_bm25_calls_get_expanded_text :
    ((HybridSearch.search (ResultFusion.init { fusion_strategy := some "rrf" }) true
        exExpander (fun _ => []) (fun _ => []) "cat" 10 0 []).2.1.map Query.text =
      ["cat extra", "cat extra"]) ∧
    "cat" ∉ ((HybridSearch.search (ResultFusion.init { fusion_strategy := some "rrf" }) true
        exExpander (fun _ => []) (fun _ => []) "cat" 10 0 []).2.1.map Query.text) := by
  refine ⟨by decide, by decide⟩

end HybridSearchSpec
